import Mathlib

/-!
Shallow embedding of the TalentScout hiring-assistant chatbot (src/app.py):
the candidate data model, the per-field validators of DATA_STEPS, the
model-gateway boundary as an explicit oracle, and the per-turn conversation
state machine, together with proofs of the specification claims about them.

Conventions of the embedding:
* Python strings are Lean `String`s; case folding, whitespace and the
  character classes of the regexes are taken at ASCII level, matching the
  inputs the program works with.
* The language-model client (Groq) is an oracle `Gateway`: each capability
  either returns the model text (`some r`) or fails (`none`, standing for
  any raised exception), exactly the two outcomes the `try/except` blocks
  of the source distinguish.
* All recursions are structural so every definition evaluates inside the
  kernel on concrete inputs.
-/

namespace TalentScout

/-- Python substring test `needle in hay` on character lists: `true` iff
`needle` occurs contiguously inside `hay` (the empty needle always occurs). -/
def subSeg (needle : List Char) : List Char → Bool
  | [] => needle.isEmpty
  | c :: t => needle.isPrefixOf (c :: t) || subSeg needle t

/-- Python `str.lower` (ASCII case folding, as applied to chat inputs). -/
def pyLower (s : String) : String := ⟨s.data.map Char.toLower⟩

/-- Python substring test `needle in hay` at `String` level. -/
def strContains (hay needle : String) : Bool := subSeg needle.data hay.data

/-- Python `str.strip` on a character list. -/
def pyStripL (cs : List Char) : List Char :=
  ((cs.dropWhile Char.isWhitespace).reverse.dropWhile Char.isWhitespace).reverse

/-- Python `str.strip` at `String` level. -/
def pyStrip (s : String) : String := ⟨pyStripL s.data⟩

/-- Helper for Python `str.split()` with no separator: accumulate the current
token (reversed in `acc`) and break on whitespace runs, producing no empty
tokens. -/
def wsTokensAux : List Char → List Char → List (List Char)
  | [], acc => if acc.isEmpty then [] else [acc.reverse]
  | c :: t, acc =>
      if c.isWhitespace then
        (if acc.isEmpty then wsTokensAux t [] else acc.reverse :: wsTokensAux t [])
      else wsTokensAux t (c :: acc)

/-- Python `s.split()` (split on whitespace runs, dropping empty tokens). -/
def pySplitWs (s : String) : List (List Char) := wsTokensAux s.data []

/-- Python `str.isalpha` on a character list: non-empty and all alphabetic. -/
def pyIsAlphaStr (cs : List Char) : Bool := !cs.isEmpty && cs.all Char.isAlpha

/-- DATA_STEPS step 1 (name): the trimmed input splits into at least two
whitespace tokens and each token, with hyphens and apostrophes (codepoint 39)
removed, is non-empty and alphabetic. -/
def nameValidation (x : String) : Bool :=
  let parts := pySplitWs (pyStrip x)
  decide (2 ≤ parts.length) &&
    parts.all fun p => pyIsAlphaStr (p.filter fun c => !(c == '-') && !(c.toNat == 39))

/-- Split a list at the first occurrence of `c`, returning the parts before
and after it (Python `s.split(c, 1)` when `c` occurs). -/
def splitAtFirst : List Char → Char → Option (List Char × List Char)
  | [], _ => none
  | x :: t, c =>
      if x == c then some ([], t)
      else
        match splitAtFirst t c with
        | some (a, b) => some (x :: a, b)
        | none => none

/-- Character class of the email local part: letters, digits, and ._%+- . -/
def isLocalChar (c : Char) : Bool :=
  c.isAlphanum || c == '.' || c == '_' || c == '%' || c == '+' || c == '-'

/-- Character class of the email domain part: letters, digits, dot, hyphen. -/
def isDomainChar (c : Char) : Bool := c.isAlphanum || c == '.' || c == '-'

/-- Part of the email regex after the at-sign: one or more domain characters,
then a literal dot, then a TLD of at least two ASCII letters, consuming the
whole remainder (the existential split mirrors regex backtracking). -/
def domainOk (cs : List Char) : Bool :=
  (List.range cs.length).any fun k =>
    let d := cs.take k
    let r := cs.drop k
    !d.isEmpty && d.all isDomainChar &&
      match r with
      | '.' :: t => decide (2 ≤ t.length) && t.all Char.isAlpha
      | _ => false

/-- DATA_STEPS step 2 (email): full match of the trimmed input against the
regex for local-part at-sign domain dot TLD.  Since no character class of the
regex contains the at-sign, splitting at the first at-sign is exhaustive. -/
def emailValidation (x : String) : Bool :=
  let cs := (pyStrip x).data
  match splitAtFirst cs '@' with
  | none => false
  | some (l, r) => !l.isEmpty && l.all isLocalChar && domainOk r

/-- DATA_STEPS step 3 (phone): at least 10 digits remain after deleting every
non-digit character of the raw input. -/
def phoneValidation (x : String) : Bool :=
  decide (10 ≤ (x.data.filter Char.isDigit).length)

/-- Value of a digit string read in base 10. -/
def digitsVal (cs : List Char) : ℕ := cs.foldl (fun n c => 10 * n + (c.toNat - 48)) 0

/-- Full match of the trimmed input against the unsigned-decimal regex:
digits, optionally followed by a dot and digits. -/
def expMatch (cs : List Char) : Bool :=
  match splitAtFirst cs '.' with
  | none => !cs.isEmpty && cs.all Char.isDigit
  | some (a, b) => !a.isEmpty && a.all Char.isDigit && !b.isEmpty && b.all Char.isDigit

/-- Numerator and fractional length of the parsed decimal: its exact value is
`(expParts cs).1 / 10 ^ (expParts cs).2`. -/
def expParts (cs : List Char) : ℕ × ℕ :=
  match splitAtFirst cs '.' with
  | none => (digitsVal cs, 0)
  | some (a, b) => (digitsVal a * 10 ^ b.length + digitsVal b, b.length)

/-- DATA_STEPS step 4 (experience): the trimmed input matches the
unsigned-decimal regex and its value lies in the closed interval from 0
to 50.  The comparison `0 <= float(x) <= 50` of the source is expressed
exactly on the decimal value by cross-multiplication (the lower bound is
vacuous for an unsigned decimal, as in the source). -/
def experienceValidation (x : String) : Bool :=
  let cs := (pyStrip x).data
  expMatch cs &&
    (decide (0 ≤ (expParts cs).1) && decide ((expParts cs).1 ≤ 50 * 10 ^ (expParts cs).2))

/-- The model-gateway boundary.  Each capability yields either the model's
raw text (or parsed JSON fields) or `none` for any transport/parse failure,
which is what every `try/except` in the source distinguishes. -/
structure Gateway where
  plausibility : String → String → Option String
  questionsResponse : Option String
  evalResponse : Option (Option String × Option String)
  freeformResponse : Option String

/-- validate_text_input_with_ai: ask the model whether the input is a
plausible value for the field; on success test whether the word yes occurs
in the stripped, lowered reply, on failure fall back to requiring length
greater than 2. -/
def validate_text_input_with_ai (gw : Gateway) (user_input field_name : String) : Bool :=
  match gw.plausibility user_input field_name with
  | some resp => strContains (pyLower (pyStrip resp)) "yes"
  | none => decide (2 < user_input.length)

/-- EXIT_KEYWORDS of the source. -/
def EXIT_KEYWORDS : List String :=
  ["bye", "goodbye", "exit", "quit", "end", "stop", "finish", "done", "thanks", "thank you"]

/-- The global exit pre-check: some exit keyword occurs in the lowered
message. -/
def exitHit (m : String) : Bool :=
  EXIT_KEYWORDS.any fun kw => strContains (pyLower m) kw

/-- Affirmative keywords of the confirmation phase. -/
def affirmHit (m : String) : Bool :=
  ["yes", "correct", "confirm", "proceed"].any fun w => strContains (pyLower m) w

/-- CONVERSATION_PHASES, as a closed enumeration (the source keys the same
six phase strings in a dictionary). -/
inductive Phase where
  | greeting
  | data_collection
  | data_confirmation
  | technical_questions
  | conclusion
  | ended
deriving DecidableEq

/-- candidate_data: the 7 collected fields, in collection order. -/
structure CandidateData where
  name : String
  email : String
  phone : String
  experience : String
  position : String
  location : String
  tech_stack : String
deriving DecidableEq

/-- One entry of st.session_state.messages. -/
structure ChatMsg where
  role : String
  content : String
deriving DecidableEq

/-- The whole per-session state kept in st.session_state. -/
structure SessionState where
  candidate_data : CandidateData
  current_step : ℕ
  conversation_phase : Phase
  technical_questions : List String
  technical_answers : List String
  current_question_index : ℕ
  retry_count : ℕ
  messages : List ChatMsg
deriving DecidableEq

def emptyCandidate : CandidateData := ⟨"", "", "", "", "", "", ""⟩

/-- Read the field of DATA_STEPS step `i` (candidate_data[DATA_STEPS[i]["field"]]). -/
def getField (cd : CandidateData) : ℕ → String
  | 1 => cd.name
  | 2 => cd.email
  | 3 => cd.phone
  | 4 => cd.experience
  | 5 => cd.position
  | 6 => cd.location
  | 7 => cd.tech_stack
  | _ => ""

/-- Write the field of DATA_STEPS step `i`. -/
def setField (cd : CandidateData) : ℕ → String → CandidateData
  | 1, v => { cd with name := v }
  | 2, v => { cd with email := v }
  | 3, v => { cd with phone := v }
  | 4, v => { cd with experience := v }
  | 5, v => { cd with position := v }
  | 6, v => { cd with location := v }
  | 7, v => { cd with tech_stack := v }
  | _, _ => cd

/-- DATA_STEPS prompts, by step index. -/
def stepPrompt : ℕ → String
  | 1 => "What\x27s your full name?"
  | 2 => "Could you please share your email address?"
  | 3 => "What\x27s your phone number?"
  | 4 => "How many years of professional experience do you have?"
  | 5 => "What position are you interested in applying for?"
  | 6 => "What\x27s your preferred work location? (or are you open to remote work?)"
  | 7 => "What programming languages, frameworks, and technologies are you proficient in?"
  | _ => ""

/-- DATA_STEPS error messages, by step index. -/
def stepError : ℕ → String
  | 1 => "Please provide your complete full name (first and last name)."
  | 2 => "Please provide a valid email address."
  | 3 => "Please provide a valid phone number with at least 10 digits."
  | 4 => "Please provide your experience in years (e.g., 2, 3.5, 0 for fresher)."
  | 5 => "Please provide a valid and clear job position."
  | 6 => "Please provide a valid location or specify \x27remote\x27."
  | 7 => "Please list the technical skills you are proficient in."
  | _ => ""

/-- DATA_STEPS validators, by step index (steps 5 to 7 delegate to the model
gateway). -/
def stepValid (gw : Gateway) : ℕ → String → Bool
  | 1, x => nameValidation x
  | 2, x => emailValidation x
  | 3, x => phoneValidation x
  | 4, x => experienceValidation x
  | 5, x => validate_text_input_with_ai gw x "Job Position"
  | 6, x => validate_text_input_with_ai gw x "Work Location"
  | 7, x => validate_text_input_with_ai gw x "Technology Stack"
  | _, _ => false

/-- A raw st.session_state: any subset of the session keys may be present. -/
structure RawSession where
  candidate_data : Option CandidateData
  current_step : Option ℕ
  conversation_phase : Option Phase
  technical_questions : Option (List String)
  technical_answers : Option (List String)
  current_question_index : Option ℕ
  retry_count : Option ℕ
  messages : Option (List ChatMsg)

/-- The raw session with every key absent (a fresh session, or one whose
keys were all deleted by the reset button). -/
def emptyRaw : RawSession := ⟨none, none, none, none, none, none, none, none⟩

/-- initialize_session_state: every absent key is set to its default. -/
def init_session_state (r : RawSession) : SessionState :=
  { candidate_data := r.candidate_data.getD emptyCandidate
    current_step := r.current_step.getD 1
    conversation_phase := r.conversation_phase.getD Phase.greeting
    technical_questions := r.technical_questions.getD []
    technical_answers := r.technical_answers.getD []
    current_question_index := r.current_question_index.getD 0
    retry_count := r.retry_count.getD 0
    messages := r.messages.getD [] }

/-- The state of a freshly initialized session. -/
def initState : SessionState := init_session_state emptyRaw

/-- The Start New Interview Session button: delete every session key, then
rerun (which re-initializes every key to its default). -/
def reset_session (_ : SessionState) : SessionState := init_session_state emptyRaw

/-- get_ai_response: the free-form model reply, or the fixed apology on
failure (the history and system prompt only steer the oracle). -/
def get_ai_response (gw : Gateway) : String :=
  match gw.freeformResponse with
  | some r => r
  | none => "I\x27m experiencing some technical difficulties right now. Could we try that again? 😊"

/-- The fixed fallback question list of generate_technical_questions. -/
def fallback_questions : List String :=
  ["Tell me about a challenging project you\x27ve worked on.",
   "How do you approach debugging?",
   "What coding best practices do you follow?",
   "How do you stay updated with new technologies?",
   "Describe your experience with version control."]

/-- Python `s.split(newline)`: split into lines, keeping empty lines. -/
def splitLines : List Char → List (List Char)
  | [] => [[]]
  | c :: t =>
      if c == '\n' then [] :: splitLines t
      else
        match splitLines t with
        | [] => [[c]]
        | l :: ls => (c :: l) :: ls

/-- The regex test for a numbered line: a single digit followed by a dot at
the start of the stripped line. -/
def startsNumbered (cs : List Char) : Bool :=
  match cs with
  | d :: c :: _ => d.isDigit && c == '.'
  | _ => false

/-- Python `line.split(dot, 1)[1]`: everything after the first dot (the
filter of parseNumbered guarantees a dot is present). -/
def afterFirstDot (cs : List Char) : List Char :=
  match splitAtFirst cs '.' with
  | some p => p.2
  | none => []

/-- The list comprehension of generate_technical_questions: keep the
non-empty lines whose stripped form starts with digit-dot, and map each to
the stripped text after its first dot. -/
def parseNumbered (content : String) : List String :=
  ((splitLines content.data).filter fun l => !l.isEmpty && startsNumbered (pyStripL l)).map
    fun l => (⟨pyStripL (afterFirstDot l)⟩ : String)

/-- generate_technical_questions: on model failure return the fallback list;
otherwise parse the numbered lines and return them exactly when there are
five, falling back otherwise.  (The experience-tier computation of the source
only steers the oracle's prompt; a malformed stored experience raises inside
the same try and is the `none` case.) -/
def generate_technical_questions (gw : Gateway) (tech_stack experience : String) : List String :=
  match gw.questionsResponse with
  | none => fallback_questions
  | some content =>
      let questions := parseNumbered content
      if questions.length = 5 then questions.take 5 else fallback_questions

/-- evaluate_technical_answer: the parsed JSON object's optional feedback and
explanation fields on success, or the fixed generic pair on failure (the
source's `candidate_name or Anuj` default applies when the passed name is
empty). -/
def evaluate_technical_answer (gw : Gateway)
    (question answer candidate_name candidate_experience_level tech_stack : String) :
    Option String × Option String :=
  match gw.evalResponse with
  | some r => r
  | none =>
      (some ("Great, thank you for your response, " ++
        (if candidate_name = "" then "Anuj" else candidate_name) ++ "!"),
       some "Let\x27s move on to the next question.")

/-- Drop the trailing zero digits of a fractional-digit list. -/
def stripTrailingZeros (cs : List Char) : List Char :=
  (cs.reverse.dropWhile (· == '0')).reverse

/-- Left-pad a digit list with zeros to length `k`. -/
def padZeros (cs : List Char) (k : ℕ) : List Char :=
  List.replicate (k - cs.length) '0' ++ cs

/-- Rendering of the float `num / 10 ^ k` as Python prints it for the short
decimals the experience validator accepts: the integer part, a dot, and the
fractional digits without trailing zeros (or `.0` when the value is
integral).  Python\x27s shortest-float repr agrees with this exact-decimal
rendering on such inputs. -/
def pyFloatRepr (num k : ℕ) : String :=
  let den := 10 ^ k
  let ip := num / den
  let fr := num % den
  if fr = 0 then toString ip ++ ".0"
  else toString ip ++ "." ++ (⟨stripTrailingZeros (padZeros (Nat.toDigits 10 fr) k)⟩ : String)

/-- The decimal value of a stored experience string, as numerator and
fractional length (every stored experience passed `experienceValidation`,
so the parse is exact there). -/
def expOf (x : String) : ℕ × ℕ := expParts (pyStrip x).data

/-- The experience tier used for question generation and answer evaluation:
entry below 2 years, mid below 5, senior otherwise. -/
def experienceTier (p : ℕ × ℕ) : String :=
  if p.1 < 2 * 10 ^ p.2 then "entry-level"
  else if p.1 < 5 * 10 ^ p.2 then "mid-level"
  else "senior-level"

/-- The tiered remark of the step-4 acknowledgement. -/
def experienceRemark (p : ℕ × ℕ) : String :=
  if p.1 = 0 then "With 0 years of experience, you\x27re just starting out! "
  else if p.1 < 2 * 10 ^ p.2 then
    "With " ++ pyFloatRepr p.1 p.2 ++ " years of experience, that\x27s a great start! "
  else if p.1 < 5 * 10 ^ p.2 then
    "With " ++ pyFloatRepr p.1 p.2 ++ " years of experience, you\x27re building a solid foundation! "
  else "With " ++ pyFloatRepr p.1 p.2 ++ " years of experience, you have significant expertise! "

/-- The per-step acknowledgement if-chain of the data-collection valid
branch, computed from the post-store candidate data `cd` and the pre-turn
first name `fn` (step 7 has no branch, leaving the response empty until the
summary overwrites it). -/
def dcAck (k : ℕ) (fn : String) (cd : CandidateData) : String :=
  if k = 1 then "Hi " ++ fn ++ "! Thanks for sharing your full name. Next, " ++ stepPrompt 2
  else if k = 2 then
    "Got it, " ++ fn ++ "! Your email address is " ++ cd.email ++ ". Next, " ++ stepPrompt 3
  else if k = 3 then
    fn ++ "! Your phone number is " ++ cd.phone ++ ". Next, " ++ stepPrompt 4
  else if k = 4 then
    fn ++ "! " ++ experienceRemark (expOf cd.experience) ++ "Next, " ++ stepPrompt 5
  else if k = 5 then
    fn ++ "! You\x27re interested in a " ++ cd.position ++ " position. That\x27s great! Next, " ++
      stepPrompt 6
  else if k = 6 then
    fn ++ "! You\x27re looking for a " ++ cd.position ++ " opportunity in " ++ cd.location ++
      ". Got it! Next, " ++ stepPrompt 7
  else ""

/-- The summary rows: the 7 fields in insertion order with their display
titles (Python `key.replace` underscore-to-space then `title()`). -/
def summaryPairs (cd : CandidateData) : List (String × String) :=
  [("Name", cd.name), ("Email", cd.email), ("Phone", cd.phone),
   ("Experience", cd.experience), ("Position", cd.position), ("Location", cd.location),
   ("Tech Stack", cd.tech_stack)]

/-- Python `newline.join`. -/
def joinLines : List String → String
  | [] => ""
  | [x] => x
  | x :: xs => x ++ "\n" ++ joinLines xs

/-- data_summary: one bullet per non-empty field, joined with newlines. -/
def dataSummary (cd : CandidateData) : String :=
  joinLines (((summaryPairs cd).filter fun p => !(p.2 == "")).map
    fun p => "- **" ++ p.1 ++ ":** " ++ p.2)

/-- The confirmation request emitted on completing step 7. -/
def summaryMsg (fn : String) (cd : CandidateData) : String :=
  "Alright, " ++ fn ++
    "! We\x27ve gathered all your information. Does this look correct?\n\n" ++
    dataSummary cd ++ "\n\nPlease type \x27yes\x27 to confirm or tell me what to change."

/-- The DATA_COLLECTION branch: validate against the current step; on
success store the raw message, emit the per-step acknowledgement, advance
the step, and on passing step 7 switch to confirmation with the summary;
on failure re-prompt with the step's error message and change nothing. -/
def dataCollectionTurn (gw : Gateway) (s : SessionState) (m fn : String) :
    SessionState × String :=
  if stepValid gw s.current_step m then
    let cd := setField s.candidate_data s.current_step m
    if 7 < s.current_step + 1 then
      ({ s with
          candidate_data := cd
          current_step := s.current_step + 1
          conversation_phase := Phase.data_confirmation }, summaryMsg fn cd)
    else
      ({ s with candidate_data := cd, current_step := s.current_step + 1 },
        dcAck s.current_step fn cd)
  else
    (s, "I need a bit more clarity, " ++ fn ++ ". " ++ stepError s.current_step ++
      " Could you please try again? 😊")

/-- The DATA_CONFIRMATION branch: on an affirmative keyword generate the
questions, allocate the answer slots, switch to technical questions and emit
the intro with question 1 (the generated list always has five entries, so
the head default is never used); otherwise stay and ask what to change. -/
def dataConfirmTurn (gw : Gateway) (s : SessionState) (m fn : String) :
    SessionState × String :=
  if affirmHit m then
    let qs := generate_technical_questions gw s.candidate_data.tech_stack
      s.candidate_data.experience
    ({ s with
        technical_questions := qs
        technical_answers := List.replicate qs.length ""
        conversation_phase := Phase.technical_questions },
      fn ++ "! You\x27re familiar with " ++ s.candidate_data.tech_stack ++
        ", which is a great combination for " ++ s.candidate_data.position ++
        ". Next, I\x27ll ask you some technical questions to assess your skills. " ++
        "Please answer them one by one. Here\x27s your first question:\n\n**Question 1:** " ++
        qs.headD "")
  else (s, "No problem, " ++ fn ++ "! What information would you like to change?")

/-- The TECHNICAL_QUESTIONS branch: evaluate the answer at the cursor,
record the raw message into the answer slot, advance the cursor, and either
append the next question or, past the last one, switch to conclusion with
the congratulations (the cursor is below the list length in every reachable
state, so the list reads and the slot write are in bounds). -/
def techTurn (gw : Gateway) (s : SessionState) (m fn : String) : SessionState × String :=
  let current_question := s.technical_questions.getD s.current_question_index ""
  let lvl := experienceTier (expOf s.candidate_data.experience)
  let ev := evaluate_technical_answer gw current_question m fn lvl s.candidate_data.tech_stack
  let feedback := ev.1.getD ("Thanks for your answer, " ++ fn ++ "!")
  let explanation := ev.2.getD "Let\x27s proceed."
  let bot := feedback ++ "\n\n" ++ explanation
  let ans := s.technical_answers.set s.current_question_index m
  let idx := s.current_question_index + 1
  if idx < s.technical_questions.length then
    ({ s with technical_answers := ans, current_question_index := idx },
      bot ++ "\n\n---\n\nReady for the next one, " ++ fn ++ "?\n\n**Question " ++
        toString (idx + 1) ++ ":** " ++ s.technical_questions.getD idx "")
  else
    ({ s with
        technical_answers := ans
        current_question_index := idx
        conversation_phase := Phase.conclusion },
      bot ++ "\n\n---\n\n🎉 **Fantastic, " ++ fn ++
        "!** You\x27ve completed all the technical questions! You did really well, " ++
        "and I appreciate you talking through them with me. " ++
        "Let me give you information about the next steps. 📋")

/-- The first token of `candidate_name.split` at a single space. -/
def firstNameToken (name : String) : String :=
  ⟨name.data.takeWhile fun c => !(c == ' ')⟩

/-- candidate_first_name, computed from the pre-turn state: the first
space-separated token of the stored name, or the placeholder for an empty
name. -/
def candidateFirstName (s : SessionState) : String :=
  if s.candidate_data.name = "" then "there" else firstNameToken s.candidate_data.name

/-- One turn of the phase engine without the history append: the global
exit pre-check, then the phase dispatch (the source's elif chain over the
six distinct phase strings).  Returns the new state and bot_response. -/
def turnCore (gw : Gateway) (s : SessionState) (m : String) : SessionState × String :=
  let fn := candidateFirstName s
  if exitHit m then
    ({ s with conversation_phase := Phase.ended },
      "Thank you for your time! Best of luck, " ++ fn ++ "! 👋")
  else
    match s.conversation_phase with
    | Phase.greeting =>
        ({ s with conversation_phase := Phase.data_collection }, get_ai_response gw)
    | Phase.data_collection => dataCollectionTurn gw s m fn
    | Phase.data_confirmation => dataConfirmTurn gw s m fn
    | Phase.technical_questions => techTurn gw s m fn
    | Phase.conclusion =>
        ({ s with conversation_phase := Phase.ended }, get_ai_response gw)
    | Phase.ended => (s, "")

def userEntry (m : String) : ChatMsg := ⟨"user", m⟩

def assistantEntry (m : String) : ChatMsg := ⟨"assistant", m⟩

/-- One full user turn: nothing happens in the ended phase or on an empty
chat input; otherwise the user message is appended, the phase engine runs
(it neither reads nor writes the history beyond passing it to the oracle),
and the bot response is appended when non-empty, exactly as the source's
`if bot_response` guard does. -/
def handle_turn (gw : Gateway) (s : SessionState) (m : String) : SessionState :=
  if s.conversation_phase = Phase.ended ∨ m = "" then s
  else
    let r := turnCore gw s m
    { r.1 with
      messages := s.messages ++ [userEntry m] ++
        (if r.2 = "" then [] else [assistantEntry r.2]) }

/-- The bot response emitted by a turn. -/
def turnBot (gw : Gateway) (s : SessionState) (m : String) : String := (turnCore gw s m).2

/-- The states a session can be in: the fresh state, anything one processed
turn away from a reachable state (under any gateway behaviour), and the
fresh state again after the reset action from the ended phase. -/
inductive Reachable : SessionState → Prop where
  | init : Reachable initState
  | step (gw : Gateway) (m : String) {s : SessionState} (h : Reachable s) :
      Reachable (handle_turn gw s m)
  | reset {s : SessionState} (h : Reachable s) (he : s.conversation_phase = Phase.ended) :
      Reachable (reset_session s)

/-- The cross-phase state invariant: the data-collection step index stays in
range and counts exactly the non-empty fields; the question machinery is
untouched until the confirmation phase is left; in the technical phase the
two lists have five slots and the cursor is below five. -/
def StateInv (s : SessionState) : Prop :=
  match s.conversation_phase with
  | Phase.greeting =>
      s.current_step = 1 ∧ s.candidate_data = emptyCandidate ∧
        s.technical_questions = [] ∧ s.technical_answers = [] ∧
        s.current_question_index = 0
  | Phase.data_collection =>
      1 ≤ s.current_step ∧ s.current_step ≤ 7 ∧
        (∀ i, 1 ≤ i → i ≤ 7 → (getField s.candidate_data i ≠ "" ↔ i < s.current_step)) ∧
        s.technical_questions = [] ∧ s.technical_answers = [] ∧
        s.current_question_index = 0
  | Phase.data_confirmation =>
      s.current_step = 8 ∧ (∀ i, 1 ≤ i → i ≤ 7 → getField s.candidate_data i ≠ "") ∧
        s.technical_questions = [] ∧ s.technical_answers = [] ∧
        s.current_question_index = 0
  | Phase.technical_questions =>
      s.current_step = 8 ∧ (∀ i, 1 ≤ i → i ≤ 7 → getField s.candidate_data i ≠ "") ∧
        s.technical_questions.length = 5 ∧ s.technical_answers.length = 5 ∧
        s.current_question_index < 5
  | Phase.conclusion => True
  | Phase.ended => True

/-- A benign concrete gateway used to exercise the machine on concrete
sessions: plausibility checks succeed affirmatively, question generation
fails (exercising the fallback list), evaluation fails (exercising the
generic feedback), free-form replies succeed. -/
def gw0 : Gateway :=
  { plausibility := fun _ _ => some "yes"
    questionsResponse := none
    evalResponse := none
    freeformResponse := some "Welcome!" }

/-- A gateway whose question response parses into five numbered lines with
empty question texts. -/
def gwBadQ : Gateway :=
  { plausibility := fun _ _ => some "yes"
    questionsResponse := some "1.\n2.\n3.\n4.\n5."
    evalResponse := none
    freeformResponse := some "ok" }

/-- A gateway whose question response parses into five numbered lines with
ordinary question texts. -/
def gwGoodQ : Gateway :=
  { plausibility := fun _ _ => some "yes"
    questionsResponse := some "1. A\n2. B\n3. C\n4. D\n5. E"
    evalResponse := none
    freeformResponse := some "ok" }

/-- A gateway whose free-form reply succeeds with the empty string. -/
def gwEmptyReply : Gateway :=
  { plausibility := fun _ _ => some "yes"
    questionsResponse := none
    evalResponse := none
    freeformResponse := some "" }

/-- A concrete session walked through the whole conversation under `gw0`:
greeting consumed. -/
def w1 : SessionState := handle_turn gw0 initState "hello"

def w2 : SessionState := handle_turn gw0 w1 "Jane Doe"

def w3 : SessionState := handle_turn gw0 w2 "jane@example.com"

def w4 : SessionState := handle_turn gw0 w3 "1234567890"

def w5 : SessionState := handle_turn gw0 w4 "3.5"

def w6 : SessionState := handle_turn gw0 w5 "Software Architect"

def w7 : SessionState := handle_turn gw0 w6 "Remote"

def w8 : SessionState := handle_turn gw0 w7 "Python and SQL"

def w9 : SessionState := handle_turn gw0 w8 "yes"

/-! ### Substring and string-append lemmas -/

theorem isPrefixOf_nil (b : List Char) : [].isPrefixOf b = true := by
  cases b <;> rfl

theorem isPrefixOf_append_self (a b : List Char) : a.isPrefixOf (a ++ b) = true := by
  induction a with
  | nil => exact isPrefixOf_nil _
  | cons c t ih => simp [List.isPrefixOf, ih]

theorem isPrefixOf_ext (n : List Char) :
    ∀ h x, n.isPrefixOf h = true → n.isPrefixOf (h ++ x) = true := by
  induction n with
  | nil => intro h x _; exact isPrefixOf_nil _
  | cons c t ih =>
      intro h x hp
      cases h with
      | nil => simp [List.isPrefixOf] at hp
      | cons d u =>
          simp only [List.cons_append, List.isPrefixOf, Bool.and_eq_true] at hp ⊢
          exact ⟨hp.1, ih u x hp.2⟩

theorem subSeg_of_isPrefixOf (n h : List Char) (hp : n.isPrefixOf h = true) :
    subSeg n h = true := by
  cases h with
  | nil =>
      cases n with
      | nil => rfl
      | cons c t => simp [List.isPrefixOf] at hp
  | cons c t => simp [subSeg, hp]

theorem subSeg_self_append (b c : List Char) : subSeg b (b ++ c) = true :=
  subSeg_of_isPrefixOf _ _ (isPrefixOf_append_self b c)

theorem subSeg_append_left (n : List Char) :
    ∀ x h, subSeg n h = true → subSeg n (x ++ h) = true := by
  intro x
  induction x with
  | nil => intro h hh; simpa using hh
  | cons c t ih =>
      intro h hh
      simp only [List.cons_append, subSeg, Bool.or_eq_true]
      exact Or.inr (ih h hh)

theorem subSeg_append_right (n : List Char) :
    ∀ h x, subSeg n h = true → subSeg n (h ++ x) = true := by
  intro h
  induction h with
  | nil =>
      intro x hh
      cases n with
      | nil => exact subSeg_self_append [] x
      | cons c t => simp [subSeg] at hh
  | cons c t ih =>
      intro x hh
      simp only [subSeg, Bool.or_eq_true] at hh
      simp only [List.cons_append, subSeg, Bool.or_eq_true]
      cases hh with
      | inl hp => exact Or.inl (isPrefixOf_ext _ _ _ hp)
      | inr hs => exact Or.inr (ih x hs)

theorem string_data_mk (l : List Char) : (⟨l⟩ : String).data = l := rfl

theorem string_append_data (a b : String) : (a ++ b).data = a.data ++ b.data :=
  String.data_append a b

theorem strContains_append_right (hay x needle : String)
    (h : strContains hay needle = true) : strContains (hay ++ x) needle = true := by
  unfold strContains at h ⊢
  rw [string_append_data]
  exact subSeg_append_right _ _ _ h

theorem strContains_append_left (x hay needle : String)
    (h : strContains hay needle = true) : strContains (x ++ hay) needle = true := by
  unfold strContains at h ⊢
  rw [string_append_data]
  exact subSeg_append_left _ _ _ h

theorem strContains_refl (s : String) : strContains s s = true := by
  unfold strContains
  have := subSeg_self_append s.data []
  simpa using this

/-- Containment of the middle part of a three-way concatenation, in the
left-associated shape produced by `++`. -/
theorem strContains_sandwich (p n t : String) : strContains (p ++ n ++ t) n = true :=
  strContains_append_right _ _ _ (strContains_append_left _ _ _ (strContains_refl n))

theorem string_append_eq_empty (a b : String) : a ++ b = "" ↔ a = "" ∧ b = "" := by
  cases a with
  | mk la =>
      cases b with
      | mk lb =>
          show (⟨la ++ lb⟩ : String) = ⟨[]⟩ ↔ _
          constructor
          · intro h
            have hd : la ++ lb = [] := congrArg String.data h
            rcases List.append_eq_nil.mp hd with ⟨h1, h2⟩
            subst h1; subst h2; exact ⟨rfl, rfl⟩
          · rintro ⟨h1, h2⟩
            have e1 : la = [] := congrArg String.data h1
            have e2 : lb = [] := congrArg String.data h2
            subst e1; subst e2; rfl

theorem exitHit_ne_empty {m : String} (h : exitHit m = true) : m ≠ "" := by
  intro he
  subst he
  simp [show exitHit "" = false from by decide] at h

/-! ### Field access lemmas -/

theorem getField_empty : ∀ i, getField emptyCandidate i = ""
  | 0 => rfl
  | 1 => rfl
  | 2 => rfl
  | 3 => rfl
  | 4 => rfl
  | 5 => rfl
  | 6 => rfl
  | 7 => rfl
  | _ + 8 => rfl

theorem getField_setField_self (cd : CandidateData) (v : String) (k : ℕ)
    (h1 : 1 ≤ k) (h7 : k ≤ 7) : getField (setField cd k v) k = v := by
  interval_cases k <;> rfl

theorem getField_setField_ne (cd : CandidateData) (v : String) (k i : ℕ)
    (h1 : 1 ≤ k) (h7 : k ≤ 7) (hne : i ≠ k) : getField (setField cd k v) i = getField cd i := by
  interval_cases k <;>
    rcases i with _ | _ | _ | _ | _ | _ | _ | _ | i <;> simp_all [getField, setField]

/-! ### Question generation -/

theorem generate_length (gw : Gateway) (ts ex : String) :
    (generate_technical_questions gw ts ex).length = 5 := by
  unfold generate_technical_questions
  cases gw.questionsResponse with
  | none => rfl
  | some content =>
      simp only
      split
      · next h => simp [List.length_take, h]
      · rfl

/-! ### Branch characterizations of the turn handler -/

theorem turnCore_exit (gw : Gateway) (s : SessionState) (m : String)
    (hx : exitHit m = true) :
    turnCore gw s m = ({ s with conversation_phase := Phase.ended },
      "Thank you for your time! Best of luck, " ++ candidateFirstName s ++ "! 👋") := by
  simp [turnCore, hx]

theorem turnCore_greeting (gw : Gateway) (s : SessionState) (m : String)
    (hx : exitHit m = false) (hp : s.conversation_phase = Phase.greeting) :
    turnCore gw s m =
      ({ s with conversation_phase := Phase.data_collection }, get_ai_response gw) := by
  simp [turnCore, hx, hp]

theorem turnCore_dc (gw : Gateway) (s : SessionState) (m : String)
    (hx : exitHit m = false) (hp : s.conversation_phase = Phase.data_collection) :
    turnCore gw s m = dataCollectionTurn gw s m (candidateFirstName s) := by
  simp [turnCore, hx, hp]

theorem turnCore_conf (gw : Gateway) (s : SessionState) (m : String)
    (hx : exitHit m = false) (hp : s.conversation_phase = Phase.data_confirmation) :
    turnCore gw s m = dataConfirmTurn gw s m (candidateFirstName s) := by
  simp [turnCore, hx, hp]

theorem turnCore_tq (gw : Gateway) (s : SessionState) (m : String)
    (hx : exitHit m = false) (hp : s.conversation_phase = Phase.technical_questions) :
    turnCore gw s m = techTurn gw s m (candidateFirstName s) := by
  simp [turnCore, hx, hp]

theorem turnCore_conclusion (gw : Gateway) (s : SessionState) (m : String)
    (hx : exitHit m = false) (hp : s.conversation_phase = Phase.conclusion) :
    turnCore gw s m = ({ s with conversation_phase := Phase.ended }, get_ai_response gw) := by
  simp [turnCore, hx, hp]

theorem handle_turn_eq (gw : Gateway) (s : SessionState) (m : String)
    (hp : s.conversation_phase ≠ Phase.ended) (hm : m ≠ "") :
    handle_turn gw s m =
      { (turnCore gw s m).1 with
        messages := s.messages ++ [userEntry m] ++
          (if (turnCore gw s m).2 = "" then [] else [assistantEntry (turnCore gw s m).2]) } := by
  simp [handle_turn, hp, hm]

/-! ### The invariant holds in every reachable state -/

theorem stateInv_messages (t : SessionState) (msgs : List ChatMsg) :
    StateInv { t with messages := msgs } ↔ StateInv t := Iff.rfl

theorem stateInv_init : StateInv initState := ⟨rfl, rfl, rfl, rfl, rfl⟩

theorem stateInv_preserved (gw : Gateway) (s : SessionState) (m : String)
    (h : StateInv s) : StateInv (handle_turn gw s m) := by
  by_cases hg : s.conversation_phase = Phase.ended ∨ m = ""
  · rw [handle_turn, if_pos hg]
    exact h
  push_neg at hg
  obtain ⟨hp, hm⟩ := hg
  rw [handle_turn_eq gw s m hp hm, stateInv_messages]
  cases hx : exitHit m with
  | true =>
      rw [turnCore_exit gw s m hx]
      exact trivial
  | false =>
      cases hph : s.conversation_phase with
      | greeting =>
          rw [turnCore_greeting gw s m hx hph]
          simp only [StateInv, hph] at h
          obtain ⟨h1, h2, h3, h4, h5⟩ := h
          show StateInv { s with conversation_phase := Phase.data_collection }
          simp only [StateInv]
          refine ⟨by omega, by omega, ?_, h3, h4, h5⟩
          intro i hi1 hi7
          rw [h1, h2, getField_empty]
          constructor
          · intro hc; exact absurd rfl hc
          · omega
      | data_collection =>
          rw [turnCore_dc gw s m hx hph]
          simp only [StateInv, hph] at h
          obtain ⟨hs1, hs7, hf, htq, hta, hqi⟩ := h
          simp only [dataCollectionTurn]
          cases hv : stepValid gw s.current_step m with
          | false =>
              simp only [Bool.false_eq_true, if_false]
              show StateInv s
              simp only [StateInv, hph]
              exact ⟨hs1, hs7, hf, htq, hta, hqi⟩
          | true =>
              simp only [if_true]
              by_cases h7 : 7 < s.current_step + 1
              · rw [if_pos h7]
                show StateInv { s with
                  candidate_data := setField s.candidate_data s.current_step m
                  current_step := s.current_step + 1
                  conversation_phase := Phase.data_confirmation }
                simp only [StateInv]
                refine ⟨by omega, ?_, htq, hta, hqi⟩
                intro i hi1 hi7
                by_cases hik : i = s.current_step
                · subst hik
                  rw [getField_setField_self _ _ _ hs1 hs7]
                  exact hm
                · rw [getField_setField_ne _ _ _ _ hs1 hs7 hik]
                  exact (hf i hi1 hi7).mpr (by omega)
              · rw [if_neg h7]
                show StateInv { s with
                  candidate_data := setField s.candidate_data s.current_step m
                  current_step := s.current_step + 1 }
                simp only [StateInv, hph]
                refine ⟨by omega, by omega, ?_, htq, hta, hqi⟩
                intro i hi1 hi7
                by_cases hik : i = s.current_step
                · subst hik
                  rw [getField_setField_self _ _ _ hs1 hs7]
                  constructor
                  · intro _; omega
                  · intro _; exact hm
                · rw [getField_setField_ne _ _ _ _ hs1 hs7 hik]
                  rw [hf i hi1 hi7]
                  omega
      | data_confirmation =>
          rw [turnCore_conf gw s m hx hph]
          simp only [StateInv, hph] at h
          obtain ⟨hs8, hf, htq, hta, hqi⟩ := h
          simp only [dataConfirmTurn]
          cases ha : affirmHit m with
          | false =>
              simp only [Bool.false_eq_true, if_false]
              show StateInv s
              simp only [StateInv, hph]
              exact ⟨hs8, hf, htq, hta, hqi⟩
          | true =>
              simp only [if_true]
              show StateInv { s with
                technical_questions := generate_technical_questions gw
                  s.candidate_data.tech_stack s.candidate_data.experience
                technical_answers := List.replicate (generate_technical_questions gw
                  s.candidate_data.tech_stack s.candidate_data.experience).length ""
                conversation_phase := Phase.technical_questions }
              simp only [StateInv]
              refine ⟨hs8, hf, generate_length gw _ _, ?_, by omega⟩
              simp [generate_length gw]
      | technical_questions =>
          rw [turnCore_tq gw s m hx hph]
          simp only [StateInv, hph] at h
          obtain ⟨hs8, hf, hlq, hla, hqi⟩ := h
          simp only [techTurn]
          by_cases hlt : s.current_question_index + 1 < s.technical_questions.length
          · rw [if_pos hlt]
            show StateInv { s with
              technical_answers := s.technical_answers.set s.current_question_index m
              current_question_index := s.current_question_index + 1 }
            simp only [StateInv, hph]
            exact ⟨hs8, hf, hlq, by simp [hla], by omega⟩
          · rw [if_neg hlt]
            exact trivial
      | conclusion =>
          rw [turnCore_conclusion gw s m hx hph]
          exact trivial
      | ended => exact absurd hph hp

theorem stateInv_reachable {s : SessionState} (h : Reachable s) : StateInv s := by
  induction h with
  | init => exact stateInv_init
  | step gw m _ ih => exact stateInv_preserved _ _ _ ih
  | reset _ _ _ => exact stateInv_init

/-! ### Projections of a processed turn -/

theorem handle_cd (gw : Gateway) (s : SessionState) (m : String)
    (hp : s.conversation_phase ≠ Phase.ended) (hm : m ≠ "") :
    (handle_turn gw s m).candidate_data = (turnCore gw s m).1.candidate_data := by
  rw [handle_turn_eq gw s m hp hm]

theorem handle_step (gw : Gateway) (s : SessionState) (m : String)
    (hp : s.conversation_phase ≠ Phase.ended) (hm : m ≠ "") :
    (handle_turn gw s m).current_step = (turnCore gw s m).1.current_step := by
  rw [handle_turn_eq gw s m hp hm]

theorem handle_phase (gw : Gateway) (s : SessionState) (m : String)
    (hp : s.conversation_phase ≠ Phase.ended) (hm : m ≠ "") :
    (handle_turn gw s m).conversation_phase = (turnCore gw s m).1.conversation_phase := by
  rw [handle_turn_eq gw s m hp hm]

theorem handle_tq (gw : Gateway) (s : SessionState) (m : String)
    (hp : s.conversation_phase ≠ Phase.ended) (hm : m ≠ "") :
    (handle_turn gw s m).technical_questions = (turnCore gw s m).1.technical_questions := by
  rw [handle_turn_eq gw s m hp hm]

theorem handle_ta (gw : Gateway) (s : SessionState) (m : String)
    (hp : s.conversation_phase ≠ Phase.ended) (hm : m ≠ "") :
    (handle_turn gw s m).technical_answers = (turnCore gw s m).1.technical_answers := by
  rw [handle_turn_eq gw s m hp hm]

theorem handle_qi (gw : Gateway) (s : SessionState) (m : String)
    (hp : s.conversation_phase ≠ Phase.ended) (hm : m ≠ "") :
    (handle_turn gw s m).current_question_index =
      (turnCore gw s m).1.current_question_index := by
  rw [handle_turn_eq gw s m hp hm]

theorem handle_retry (gw : Gateway) (s : SessionState) (m : String)
    (hp : s.conversation_phase ≠ Phase.ended) (hm : m ≠ "") :
    (handle_turn gw s m).retry_count = (turnCore gw s m).1.retry_count := by
  rw [handle_turn_eq gw s m hp hm]

/-- State components of a valid data-collection turn (common to the
mid-collection and the step-7 completion cases). -/
theorem dct_state (gw : Gateway) (s : SessionState) (m fn : String)
    (hv : stepValid gw s.current_step m = true) :
    (dataCollectionTurn gw s m fn).1.candidate_data =
      setField s.candidate_data s.current_step m ∧
    (dataCollectionTurn gw s m fn).1.current_step = s.current_step + 1 ∧
    (dataCollectionTurn gw s m fn).1.technical_questions = s.technical_questions ∧
    (dataCollectionTurn gw s m fn).1.technical_answers = s.technical_answers ∧
    (dataCollectionTurn gw s m fn).1.current_question_index = s.current_question_index := by
  simp only [dataCollectionTurn, hv, if_true]
  by_cases h7 : 7 < s.current_step + 1
  · rw [if_pos h7]
    exact ⟨rfl, rfl, rfl, rfl, rfl⟩
  · rw [if_neg h7]
    exact ⟨rfl, rfl, rfl, rfl, rfl⟩

/-! ### The claims -/

/-- Claim C1: in every non-terminal phase, a message containing an exit
keyword (case-insensitive substring against the fixed set) ends the session:
the phase becomes `ended`, every other state component is untouched (no
phase-specific logic runs), and the emitted farewell contains the
candidate's first name token when the name field is non-empty, and the
placeholder `there` otherwise. -/
theorem claim_C1 (gw : Gateway) (s : SessionState) (m : String)
    (hp : s.conversation_phase ≠ Phase.ended) (hx : exitHit m = true) :
    (handle_turn gw s m).conversation_phase = Phase.ended ∧
    (handle_turn gw s m).candidate_data = s.candidate_data ∧
    (handle_turn gw s m).current_step = s.current_step ∧
    (handle_turn gw s m).technical_questions = s.technical_questions ∧
    (handle_turn gw s m).technical_answers = s.technical_answers ∧
    (handle_turn gw s m).current_question_index = s.current_question_index ∧
    (handle_turn gw s m).retry_count = s.retry_count ∧
    turnBot gw s m =
      "Thank you for your time! Best of luck, " ++ candidateFirstName s ++ "! 👋" ∧
    (s.candidate_data.name ≠ "" →
      strContains (turnBot gw s m) (firstNameToken s.candidate_data.name) = true) ∧
    (s.candidate_data.name = "" → strContains (turnBot gw s m) "there" = true) := by
  have hm := exitHit_ne_empty hx
  rw [handle_turn_eq gw s m hp hm]
  unfold turnBot
  rw [turnCore_exit gw s m hx]
  refine ⟨rfl, rfl, rfl, rfl, rfl, rfl, rfl, rfl, ?_, ?_⟩
  · intro hn
    unfold candidateFirstName
    rw [if_neg hn]
    exact strContains_sandwich _ _ _
  · intro hn
    unfold candidateFirstName
    rw [if_pos hn]
    exact strContains_sandwich _ _ _

/-- Witness for C1: from the concrete data-collection state `w1`, the
message Okay bye now ends the session. -/
theorem claim_C1_witness :
    w1.conversation_phase ≠ Phase.ended ∧ exitHit "Okay bye now" = true ∧
    (handle_turn gw0 w1 "Okay bye now").conversation_phase = Phase.ended ∧
    strContains (turnBot gw0 w1 "Okay bye now") "there" = true := by
  have h := claim_C1 gw0 w1 "Okay bye now" (by decide) (by decide)
  exact ⟨by decide, by decide, h.1, h.2.2.2.2.2.2.2.2.2 (by decide)⟩

/-- Claim C2: a valid data-collection turn advances the step index by
exactly one and fills exactly the current step's previously-empty field with
the raw message; moreover, over any reachable state, a non-empty field is
never cleared or changed by a turn, so each field is assigned at most once
per session. -/
theorem claim_C2 :
    (∀ (gw : Gateway) (s : SessionState) (m : String), Reachable s →
      s.conversation_phase = Phase.data_collection → exitHit m = false → m ≠ "" →
      stepValid gw s.current_step m = true →
      (handle_turn gw s m).current_step = s.current_step + 1 ∧
      getField (handle_turn gw s m).candidate_data s.current_step = m ∧
      getField s.candidate_data s.current_step = "" ∧
      (∀ i, 1 ≤ i → i ≤ 7 → i ≠ s.current_step →
        getField (handle_turn gw s m).candidate_data i = getField s.candidate_data i)) ∧
    (∀ (gw : Gateway) (s : SessionState) (m : String) (i : ℕ), Reachable s →
      1 ≤ i → i ≤ 7 → getField s.candidate_data i ≠ "" →
      getField (handle_turn gw s m).candidate_data i = getField s.candidate_data i) := by
  constructor
  · intro gw s m hr hp hx hm hv
    have hI := stateInv_reachable hr
    simp only [StateInv, hp] at hI
    obtain ⟨hs1, hs7, hf, _, _, _⟩ := hI
    have hpe : s.conversation_phase ≠ Phase.ended := by rw [hp]; intro hc; cases hc
    have hcd := handle_cd gw s m hpe hm
    have hst := handle_step gw s m hpe hm
    rw [turnCore_dc gw s m hx hp] at hcd hst
    have hd := dct_state gw s m (candidateFirstName s) hv
    have hemp : getField s.candidate_data s.current_step = "" := by
      by_contra hne
      exact absurd ((hf _ hs1 hs7).mp hne) (by omega)
    refine ⟨by rw [hst, hd.2.1], ?_, hemp, ?_⟩
    · rw [hcd, hd.1]
      exact getField_setField_self _ _ _ hs1 hs7
    · intro i hi1 hi7 hik
      rw [hcd, hd.1]
      exact getField_setField_ne _ _ _ _ hs1 hs7 hik
  · intro gw s m i hr hi1 hi7 hne
    by_cases hg : s.conversation_phase = Phase.ended ∨ m = ""
    · rw [handle_turn, if_pos hg]
    push_neg at hg
    obtain ⟨hp, hm⟩ := hg
    rw [handle_cd gw s m hp hm]
    cases hx : exitHit m with
    | true => rw [turnCore_exit gw s m hx]
    | false =>
        cases hph : s.conversation_phase with
        | greeting => rw [turnCore_greeting gw s m hx hph]
        | data_collection =>
            rw [turnCore_dc gw s m hx hph]
            cases hv : stepValid gw s.current_step m with
            | false => simp only [dataCollectionTurn, hv, Bool.false_eq_true, if_false]
            | true =>
                have hI := stateInv_reachable hr
                simp only [StateInv, hph] at hI
                obtain ⟨hs1, hs7, hf, _, _, _⟩ := hI
                have hik : i ≠ s.current_step := by
                  intro he
                  have := (hf i hi1 hi7).mp hne
                  omega
                rw [(dct_state gw s m (candidateFirstName s) hv).1]
                exact getField_setField_ne _ _ _ _ hs1 hs7 hik
        | data_confirmation =>
            rw [turnCore_conf gw s m hx hph]
            cases ha : affirmHit m with
            | false => simp only [dataConfirmTurn, ha, Bool.false_eq_true, if_false]
            | true => simp only [dataConfirmTurn, ha, if_true]
        | technical_questions =>
            rw [turnCore_tq gw s m hx hph]
            simp only [techTurn]
            by_cases hlt :
              s.current_question_index + 1 < s.technical_questions.length
            · rw [if_pos hlt]
            · rw [if_neg hlt]
        | conclusion => rw [turnCore_conclusion gw s m hx hph]
        | ended => exact absurd hph hp

/-- Witness for C2: the valid name turn from the concrete state `w1`
advances the step from 1 to 2 and fills exactly the name field; the
monotonicity part keeps the stored name unchanged on the next turn. -/
theorem claim_C2_witness :
    (handle_turn gw0 w1 "Jane Doe").current_step = w1.current_step + 1 ∧
    getField (handle_turn gw0 w1 "Jane Doe").candidate_data w1.current_step = "Jane Doe" ∧
    getField w1.candidate_data w1.current_step = "" ∧
    getField (handle_turn gw0 w2 "x@y.com is mine").candidate_data 1 =
      getField w2.candidate_data 1 := by
  have hA := claim_C2.1 gw0 w1 "Jane Doe" (Reachable.step gw0 "hello" Reachable.init)
    (by decide) (by decide) (by decide) (by decide)
  have hB := claim_C2.2 gw0 w2 "x@y.com is mine" 1
    (Reachable.step gw0 "Jane Doe" (Reachable.step gw0 "hello" Reachable.init))
    (by decide) (by decide) (by decide)
  exact ⟨hA.1, hA.2.1, hA.2.2.1, hB⟩

/-- Claim C3: an invalid data-collection turn changes neither the step
index nor any field nor the phase, and the bot message contains the current
step's error message. -/
theorem claim_C3 (gw : Gateway) (s : SessionState) (m : String) (hr : Reachable s)
    (hp : s.conversation_phase = Phase.data_collection) (hx : exitHit m = false)
    (hm : m ≠ "") (hv : stepValid gw s.current_step m = false) :
    (handle_turn gw s m).current_step = s.current_step ∧
    (handle_turn gw s m).candidate_data = s.candidate_data ∧
    (handle_turn gw s m).conversation_phase = Phase.data_collection ∧
    strContains (turnBot gw s m) (stepError s.current_step) = true := by
  have hpe : s.conversation_phase ≠ Phase.ended := by rw [hp]; intro hc; cases hc
  have hcd := handle_cd gw s m hpe hm
  have hst := handle_step gw s m hpe hm
  have hph := handle_phase gw s m hpe hm
  unfold turnBot
  rw [turnCore_dc gw s m hx hp] at hcd hst hph ⊢
  simp only [dataCollectionTurn, hv, Bool.false_eq_true, if_false] at hcd hst hph ⊢
  refine ⟨hst, hcd, by rw [hph, hp], ?_⟩
  exact strContains_append_right _ _ _
    (strContains_append_left _ _ _ (strContains_refl _))

/-- Witness for C3: the one-token name Jane is rejected at step 1 of the
concrete state `w1`, which stays unchanged and re-emits the name error. -/
theorem claim_C3_witness :
    (handle_turn gw0 w1 "Jane").current_step = w1.current_step ∧
    (handle_turn gw0 w1 "Jane").candidate_data = w1.candidate_data ∧
    (handle_turn gw0 w1 "Jane").conversation_phase = Phase.data_collection ∧
    strContains (turnBot gw0 w1 "Jane") (stepError w1.current_step) = true :=
  claim_C3 gw0 w1 "Jane" (Reachable.step gw0 "hello" Reachable.init)
    (by decide) (by decide) (by decide) (by decide)

/-- When every field is non-empty, the summary filter keeps all 7 rows. -/
theorem dataSummary_full (cd : CandidateData)
    (h : ∀ i, 1 ≤ i → i ≤ 7 → getField cd i ≠ "") :
    dataSummary cd =
      joinLines ((summaryPairs cd).map fun p => "- **" ++ p.1 ++ ":** " ++ p.2) := by
  have h1 : cd.name ≠ "" := h 1 (by omega) (by omega)
  have h2 : cd.email ≠ "" := h 2 (by omega) (by omega)
  have h3 : cd.phone ≠ "" := h 3 (by omega) (by omega)
  have h4 : cd.experience ≠ "" := h 4 (by omega) (by omega)
  have h5 : cd.position ≠ "" := h 5 (by omega) (by omega)
  have h6 : cd.location ≠ "" := h 6 (by omega) (by omega)
  have h7 : cd.tech_stack ≠ "" := h 7 (by omega) (by omega)
  simp [dataSummary, summaryPairs, List.filter, beq_eq_false_iff_ne.mpr h1,
    beq_eq_false_iff_ne.mpr h2, beq_eq_false_iff_ne.mpr h3, beq_eq_false_iff_ne.mpr h4,
    beq_eq_false_iff_ne.mpr h5, beq_eq_false_iff_ne.mpr h6, beq_eq_false_iff_ne.mpr h7]

/-- Claim C4: the turn that validly completes step 7 — and only such a
turn — moves the phase to data confirmation, and its summary message lists
exactly the 7 collected values (the non-empty filter keeps every row)
together with the confirmation request. -/
theorem claim_C4 :
    (∀ (gw : Gateway) (s : SessionState) (m : String), Reachable s →
      s.conversation_phase = Phase.data_collection → s.current_step = 7 →
      exitHit m = false → m ≠ "" → stepValid gw s.current_step m = true →
      (handle_turn gw s m).conversation_phase = Phase.data_confirmation ∧
      turnBot gw s m =
        summaryMsg (candidateFirstName s) (setField s.candidate_data 7 m) ∧
      dataSummary (setField s.candidate_data 7 m) =
        joinLines ((summaryPairs (setField s.candidate_data 7 m)).map
          fun p => "- **" ++ p.1 ++ ":** " ++ p.2)) ∧
    (∀ (gw : Gateway) (s : SessionState) (m : String), Reachable s → m ≠ "" →
      s.conversation_phase ≠ Phase.data_confirmation →
      ((handle_turn gw s m).conversation_phase = Phase.data_confirmation ↔
        exitHit m = false ∧ s.conversation_phase = Phase.data_collection ∧
          s.current_step = 7 ∧ stepValid gw s.current_step m = true)) := by
  constructor
  · intro gw s m hr hp h7 hx hm hv
    have hI := stateInv_reachable hr
    simp only [StateInv, hp] at hI
    obtain ⟨hs1, hs7, hf, _, _, _⟩ := hI
    have hpe : s.conversation_phase ≠ Phase.ended := by rw [hp]; intro hc; cases hc
    have hph := handle_phase gw s m hpe hm
    unfold turnBot
    rw [turnCore_dc gw s m hx hp] at hph ⊢
    simp only [dataCollectionTurn, hv, if_true] at hph ⊢
    rw [h7] at hph ⊢
    rw [if_pos (show (7:ℕ) < 7 + 1 by omega)] at hph ⊢
    refine ⟨by rw [hph], rfl, ?_⟩
    apply dataSummary_full
    intro i hi1 hi7
    by_cases hik : i = 7
    · subst hik
      rw [getField_setField_self _ _ _ (by omega) (by omega)]
      exact hm
    · rw [getField_setField_ne _ _ _ _ (by omega) (by omega) hik]
      exact (hf i hi1 hi7).mpr (by omega)
  · intro gw s m hr hm hnc
    constructor
    · intro hcf
      by_cases hg : s.conversation_phase = Phase.ended ∨ m = ""
      · rw [handle_turn, if_pos hg] at hcf
        exact absurd hcf hnc
      push_neg at hg
      obtain ⟨hp, hm'⟩ := hg
      rw [handle_phase gw s m hp hm'] at hcf
      cases hx : exitHit m with
      | true =>
          rw [turnCore_exit gw s m hx] at hcf
          exact absurd (show Phase.ended = Phase.data_confirmation from hcf) (by decide)
      | false =>
          cases hph : s.conversation_phase with
          | greeting =>
              rw [turnCore_greeting gw s m hx hph] at hcf
              exact absurd (show Phase.data_collection = Phase.data_confirmation from hcf)
                (by decide)
          | data_collection =>
              rw [turnCore_dc gw s m hx hph] at hcf
              cases hv : stepValid gw s.current_step m with
              | false =>
                  simp only [dataCollectionTurn, hv, Bool.false_eq_true, if_false] at hcf
                  have h2 : s.conversation_phase = Phase.data_confirmation := hcf
                  rw [hph] at h2
                  exact absurd h2 (by decide)
              | true =>
                  simp only [dataCollectionTurn, hv, if_true] at hcf
                  by_cases h7 : 7 < s.current_step + 1
                  · have hI := stateInv_reachable hr
                    simp only [StateInv, hph] at hI
                    obtain ⟨hs1, hs7, _, _, _, _⟩ := hI
                    exact ⟨rfl, rfl, by omega, rfl⟩
                  · rw [if_neg h7] at hcf
                    have h2 : s.conversation_phase = Phase.data_confirmation := hcf
                    rw [hph] at h2
                    exact absurd h2 (by decide)
          | data_confirmation => exact absurd hph hnc
          | technical_questions =>
              rw [turnCore_tq gw s m hx hph] at hcf
              simp only [techTurn] at hcf
              by_cases hlt : s.current_question_index + 1 < s.technical_questions.length
              · rw [if_pos hlt] at hcf
                have h2 : s.conversation_phase = Phase.data_confirmation := hcf
                rw [hph] at h2
                exact absurd h2 (by decide)
              · rw [if_neg hlt] at hcf
                exact absurd (show Phase.conclusion = Phase.data_confirmation from hcf)
                  (by decide)
          | conclusion =>
              rw [turnCore_conclusion gw s m hx hph] at hcf
              exact absurd (show Phase.ended = Phase.data_confirmation from hcf) (by decide)
          | ended => exact absurd hph hp
    · rintro ⟨hx, hph, h7, hv⟩
      have hpe : s.conversation_phase ≠ Phase.ended := by rw [hph]; intro hc; cases hc
      rw [handle_phase gw s m hpe hm, turnCore_dc gw s m hx hph]
      simp only [dataCollectionTurn, hv, if_true]
      rw [h7, if_pos (show (7:ℕ) < 7 + 1 by omega)]

/-- Witness for C4: completing step 7 of the concrete session moves it to
confirmation and emits the full summary of the 7 values. -/
theorem claim_C4_witness :
    (handle_turn gw0 w7 "Python and SQL").conversation_phase = Phase.data_confirmation ∧
    turnBot gw0 w7 "Python and SQL" =
      summaryMsg (candidateFirstName w7) (setField w7.candidate_data 7 "Python and SQL") := by
  have h := claim_C4.1 gw0 w7 "Python and SQL"
    (Reachable.step gw0 "Remote" (Reachable.step gw0 "Software Architect"
      (Reachable.step gw0 "3.5" (Reachable.step gw0 "1234567890"
        (Reachable.step gw0 "jane@example.com" (Reachable.step gw0 "Jane Doe"
          (Reachable.step gw0 "hello" Reachable.init)))))))
    (by decide) (by decide) (by decide) (by decide) (by decide)
  exact ⟨h.1, h.2.1⟩

/-- State components of a technical-questions turn (common to the
mid-assessment and the final-question cases). -/
theorem techTurn_state (gw : Gateway) (s : SessionState) (m fn : String) :
    (techTurn gw s m fn).1.current_question_index = s.current_question_index + 1 ∧
    (techTurn gw s m fn).1.technical_answers =
      s.technical_answers.set s.current_question_index m ∧
    (techTurn gw s m fn).1.technical_questions = s.technical_questions ∧
    (techTurn gw s m fn).1.candidate_data = s.candidate_data := by
  simp only [techTurn]
  by_cases hlt : s.current_question_index + 1 < s.technical_questions.length
  · rw [if_pos hlt]
    exact ⟨rfl, rfl, rfl, rfl⟩
  · rw [if_neg hlt]
    exact ⟨rfl, rfl, rfl, rfl⟩

/-- Claim C5: a technical-questions turn advances the cursor by exactly one
and records the raw message in the answer slot at the pre-turn cursor; the
phase moves to conclusion (with the congratulations appended) exactly when
the cursor reaches 5 — never before (the cursor is below 5 in every
reachable technical-questions state) and never after. -/
theorem claim_C5 (gw : Gateway) (s : SessionState) (m : String) (hr : Reachable s)
    (hp : s.conversation_phase = Phase.technical_questions) (hx : exitHit m = false)
    (hm : m ≠ "") :
    (handle_turn gw s m).current_question_index = s.current_question_index + 1 ∧
    (handle_turn gw s m).technical_answers =
      s.technical_answers.set s.current_question_index m ∧
    (handle_turn gw s m).technical_answers.get? s.current_question_index = some m ∧
    (∀ j, j ≠ s.current_question_index →
      (handle_turn gw s m).technical_answers.get? j = s.technical_answers.get? j) ∧
    (handle_turn gw s m).technical_questions = s.technical_questions ∧
    s.current_question_index < 5 ∧
    ((handle_turn gw s m).conversation_phase = Phase.conclusion ↔
      s.current_question_index + 1 = 5) ∧
    (s.current_question_index + 1 < 5 →
      (handle_turn gw s m).conversation_phase = Phase.technical_questions) ∧
    (s.current_question_index + 1 = 5 →
      strContains (turnBot gw s m)
        "You\x27ve completed all the technical questions!" = true) := by
  have hI := stateInv_reachable hr
  simp only [StateInv, hp] at hI
  obtain ⟨hs8, hf, hlq, hla, hqi⟩ := hI
  have hpe : s.conversation_phase ≠ Phase.ended := by rw [hp]; intro hc; cases hc
  have hqi' := handle_qi gw s m hpe hm
  have hta' := handle_ta gw s m hpe hm
  have htq' := handle_tq gw s m hpe hm
  have hph' := handle_phase gw s m hpe hm
  rw [turnCore_tq gw s m hx hp] at hqi' hta' htq' hph'
  have hts := techTurn_state gw s m (candidateFirstName s)
  rw [hts.1] at hqi'
  rw [hts.2.1] at hta'
  rw [hts.2.2.1] at htq'
  refine ⟨hqi', hta', ?_, ?_, htq', hqi, ?_, ?_, ?_⟩
  · rw [hta']
    exact List.get?_set_eq_of_lt m (by omega)
  · intro j hj
    rw [hta']
    exact List.get?_set_ne m s.technical_answers (Ne.symm hj)
  · rw [hph']
    simp only [techTurn, hlq]
    by_cases hlt : s.current_question_index + 1 < 5
    · rw [if_pos hlt]
      constructor
      · intro hc
        rw [hp] at hc
        cases hc
      · omega
    · rw [if_neg hlt]
      constructor
      · intro _; omega
      · intro _; rfl
  · intro hlt
    rw [hph']
    simp only [techTurn, hlq]
    rw [if_pos hlt]
    exact hp
  · intro h5
    unfold turnBot
    rw [turnCore_tq gw s m hx hp]
    simp only [techTurn, hlq]
    rw [if_neg (by omega)]
    exact strContains_append_right _ _ _ (strContains_append_right _ _ _
      (strContains_append_left _ _ _ (by decide)))

/-- Witness for C5: the first answer of the concrete session advances the
cursor from 0 to 1, records the raw message in slot 0, and keeps the phase. -/
theorem claim_C5_witness :
    (handle_turn gw0 w9 "An index speeds lookups").current_question_index =
      w9.current_question_index + 1 ∧
    (handle_turn gw0 w9 "An index speeds lookups").technical_answers.get?
      w9.current_question_index = some "An index speeds lookups" ∧
    (handle_turn gw0 w9 "An index speeds lookups").conversation_phase =
      Phase.technical_questions := by
  have h := claim_C5 gw0 w9 "An index speeds lookups"
    (Reachable.step gw0 "yes" (Reachable.step gw0 "Python and SQL"
      (Reachable.step gw0 "Remote" (Reachable.step gw0 "Software Architect"
        (Reachable.step gw0 "3.5" (Reachable.step gw0 "1234567890"
          (Reachable.step gw0 "jane@example.com" (Reachable.step gw0 "Jane Doe"
            (Reachable.step gw0 "hello" Reachable.init)))))))))
    (by decide) (by decide) (by decide)
  exact ⟨h.1, h.2.2.1, h.2.2.2.2.2.2.2.1 (by decide)⟩

/-- Counterexample to C6 as stated: a gateway response of five numbered
lines with nothing after the dots parses into exactly 5 questions, so it is
returned as-is — but its five strings are all empty, against the claim that
every returned question is non-empty. -/
theorem claim_C6_counterexample :
    gwBadQ.questionsResponse = some "1.\n2.\n3.\n4.\n5." ∧
    generate_technical_questions gwBadQ "Python" "3" = ["", "", "", "", ""] ∧
    "" ∈ generate_technical_questions gwBadQ "Python" "3" := by
  exact ⟨rfl, by decide, by decide⟩

/-- Claim C6 amended: generate_questions returns a list of exactly 5
strings for every gateway outcome — the fixed fallback list (whose 5 entries
are non-empty) when the call fails or the response does not parse into
exactly 5 numbered lines, and the 5 parsed question strings otherwise (those
parsed strings need not be non-empty). -/
theorem claim_C6_amended :
    (∀ (gw : Gateway) (ts ex : String),
      (generate_technical_questions gw ts ex).length = 5) ∧
    (∀ (gw : Gateway) (ts ex : String), gw.questionsResponse = none →
      generate_technical_questions gw ts ex = fallback_questions) ∧
    (∀ (gw : Gateway) (ts ex r : String), gw.questionsResponse = some r →
      (parseNumbered r).length ≠ 5 →
      generate_technical_questions gw ts ex = fallback_questions) ∧
    (∀ (gw : Gateway) (ts ex r : String), gw.questionsResponse = some r →
      (parseNumbered r).length = 5 →
      generate_technical_questions gw ts ex = parseNumbered r) ∧
    (∀ q ∈ fallback_questions, q ≠ "") := by
  refine ⟨generate_length, ?_, ?_, ?_, by decide⟩
  · intro gw ts ex h
    unfold generate_technical_questions
    rw [h]
  · intro gw ts ex r h hlen
    unfold generate_technical_questions
    rw [h]
    simp only [if_neg hlen]
  · intro gw ts ex r h hlen
    unfold generate_technical_questions
    rw [h]
    simp only [if_pos hlen]
    rw [← hlen]
    exact List.take_length _

/-- Witness for C6 amended: a well-formed five-line response is returned
parsed; the failing gateway `gw0` yields the fallback list. -/
theorem claim_C6_witness :
    generate_technical_questions gwGoodQ "Python" "3" =
      parseNumbered "1. A\n2. B\n3. C\n4. D\n5. E" ∧
    parseNumbered "1. A\n2. B\n3. C\n4. D\n5. E" = ["A", "B", "C", "D", "E"] ∧
    generate_technical_questions gw0 "Python" "3" = fallback_questions := by
  refine ⟨?_, by decide, ?_⟩
  · exact claim_C6_amended.2.2.2.1 gwGoodQ "Python" "3" _ rfl (by decide)
  · exact claim_C6_amended.2.1 gw0 "Python" "3" rfl

/-- Counterexample to C7 as stated: on the very turn the name Jane Doe is
stored (step 1 of the concrete session `w1`), the acknowledgement is
computed from the pre-turn, still-empty name, so it greets with the
placeholder and does not contain the just-provided first name Jane. -/
theorem claim_C7_counterexample :
    w1.conversation_phase = Phase.data_collection ∧ w1.current_step = 1 ∧
    nameValidation "Jane Doe" = true ∧
    turnBot gw0 w1 "Jane Doe" =
      "Hi there! Thanks for sharing your full name. Next, " ++
        "Could you please share your email address?" ∧
    strContains (turnBot gw0 w1 "Jane Doe") "Jane" = false := by
  exact ⟨by decide, by decide, by decide, by decide, by decide⟩

/-- Each acknowledged step from 2 to 6 greets with the pre-turn first
name. -/
theorem dcAck_contains_fn (k : ℕ) (fn : String) (cd : CandidateData)
    (h2 : 2 ≤ k) (h6 : k ≤ 6) : strContains (dcAck k fn cd) fn = true := by
  interval_cases k
  · simp only [dcAck, if_neg (by omega : ¬ (2:ℕ) = 1), if_pos rfl]
    exact strContains_append_right _ _ _ (strContains_append_right _ _ _
      (strContains_append_right _ _ _ (strContains_append_right _ _ _
        (strContains_append_left _ _ _ (strContains_refl fn)))))
  · simp only [dcAck, if_neg (by omega : ¬ (3:ℕ) = 1), if_neg (by omega : ¬ (3:ℕ) = 2),
      if_pos rfl]
    exact strContains_append_right _ _ _ (strContains_append_right _ _ _
      (strContains_append_right _ _ _ (strContains_append_right _ _ _
        (strContains_refl fn))))
  · simp only [dcAck, if_neg (by omega : ¬ (4:ℕ) = 1), if_neg (by omega : ¬ (4:ℕ) = 2),
      if_neg (by omega : ¬ (4:ℕ) = 3), if_pos rfl]
    exact strContains_append_right _ _ _ (strContains_append_right _ _ _
      (strContains_append_right _ _ _ (strContains_append_right _ _ _
        (strContains_refl fn))))
  · simp only [dcAck, if_neg (by omega : ¬ (5:ℕ) = 1), if_neg (by omega : ¬ (5:ℕ) = 2),
      if_neg (by omega : ¬ (5:ℕ) = 3), if_neg (by omega : ¬ (5:ℕ) = 4), if_pos rfl]
    exact strContains_append_right _ _ _ (strContains_append_right _ _ _
      (strContains_append_right _ _ _ (strContains_append_right _ _ _
        (strContains_refl fn))))
  · simp only [dcAck, if_neg (by omega : ¬ (6:ℕ) = 1), if_neg (by omega : ¬ (6:ℕ) = 2),
      if_neg (by omega : ¬ (6:ℕ) = 3), if_neg (by omega : ¬ (6:ℕ) = 4),
      if_neg (by omega : ¬ (6:ℕ) = 5), if_pos rfl]
    exact strContains_append_right _ _ _ (strContains_append_right _ _ _
      (strContains_append_right _ _ _ (strContains_append_right _ _ _
        (strContains_append_right _ _ _ (strContains_append_right _ _ _
          (strContains_refl fn))))))

/-- Claim C7 amended: the acknowledgements of accepted steps 2 through 6
contain the candidate's first name token (the name is stored from step 1
on); the step-1 acknowledgement, computed from the pre-turn state in which
the name field is still empty, greets with the placeholder `there` rather
than the first token of the just-provided name. -/
theorem claim_C7_amended (gw : Gateway) (s : SessionState) (m : String) (hr : Reachable s)
    (hp : s.conversation_phase = Phase.data_collection) (hx : exitHit m = false)
    (hm : m ≠ "") (hv : stepValid gw s.current_step m = true) :
    (2 ≤ s.current_step → s.current_step ≤ 6 →
      s.candidate_data.name ≠ "" ∧
      strContains (turnBot gw s m) (firstNameToken s.candidate_data.name) = true) ∧
    (s.current_step = 1 →
      s.candidate_data.name = "" ∧ strContains (turnBot gw s m) "there" = true) := by
  have hI := stateInv_reachable hr
  simp only [StateInv, hp] at hI
  obtain ⟨hs1, hs7, hf, _, _, _⟩ := hI
  unfold turnBot
  rw [turnCore_dc gw s m hx hp]
  constructor
  · intro h2 h6
    have hn : s.candidate_data.name ≠ "" := (hf 1 (by omega) (by omega)).mpr (by omega)
    have hcf : candidateFirstName s = firstNameToken s.candidate_data.name := by
      unfold candidateFirstName
      rw [if_neg hn]
    rw [hcf]
    simp only [dataCollectionTurn, hv, if_true]
    rw [if_neg (show ¬ 7 < s.current_step + 1 by omega)]
    exact ⟨hn, dcAck_contains_fn _ _ _ h2 h6⟩
  · intro h1
    have hn : s.candidate_data.name = "" := by
      by_contra hne
      have := (hf 1 (by omega) (by omega)).mp hne
      omega
    have hcf : candidateFirstName s = "there" := by
      unfold candidateFirstName
      rw [if_pos hn]
    rw [hcf]
    simp only [dataCollectionTurn, hv, if_true]
    rw [h1, if_neg (show ¬ 7 < 1 + 1 by omega)]
    refine ⟨hn, ?_⟩
    simp only [dcAck, if_pos rfl]
    exact strContains_append_right _ _ _ (strContains_append_right _ _ _
      (strContains_append_left _ _ _ (strContains_refl "there")))

/-- Witness for C7 amended: the step-2 acknowledgement of the concrete
session contains Jane, the first token of the stored name. -/
theorem claim_C7_witness :
    w2.candidate_data.name = "Jane Doe" ∧
    firstNameToken w2.candidate_data.name = "Jane" ∧
    strContains (turnBot gw0 w2 "jane@example.com")
      (firstNameToken w2.candidate_data.name) = true := by
  have h := (claim_C7_amended gw0 w2 "jane@example.com"
    (Reachable.step gw0 "Jane Doe" (Reachable.step gw0 "hello" Reachable.init))
    (by decide) (by decide) (by decide) (by decide)).1 (by decide) (by decide)
  exact ⟨by decide, by decide, h.2⟩

/-- Claim C8: the session reset action performed after reaching the ended
phase yields a state equal to a freshly initialized session: greeting phase,
all 7 fields empty, empty history, cursor 0, empty question and answer
lists, retry count 0 (and step index 1). -/
theorem claim_C8 (s : SessionState) (h : s.conversation_phase = Phase.ended) :
    reset_session s = initState ∧
    initState.conversation_phase = Phase.greeting ∧
    initState.candidate_data = emptyCandidate ∧
    initState.messages = [] ∧
    initState.current_question_index = 0 ∧
    initState.technical_questions = [] ∧
    initState.technical_answers = [] ∧
    initState.retry_count = 0 ∧
    initState.current_step = 1 :=
  ⟨rfl, rfl, rfl, rfl, rfl, rfl, rfl, rfl, rfl⟩

/-- Witness for C8: an exit keyword from the fresh session reaches the
ended phase, and resetting from there restores the fresh state. -/
theorem claim_C8_witness :
    (handle_turn gw0 initState "bye").conversation_phase = Phase.ended ∧
    reset_session (handle_turn gw0 initState "bye") = initState := by
  have h := claim_C8 (handle_turn gw0 initState "bye") (by decide)
  exact ⟨by decide, h.1⟩

/-! ### Characterization of the first-dot split, for the experience
validator -/

theorem splitAtFirst_sound (c : Char) :
    ∀ (cs a b : List Char), splitAtFirst cs c = some (a, b) → cs = a ++ c :: b := by
  intro cs
  induction cs with
  | nil => intro a b h; simp [splitAtFirst] at h
  | cons x t ih =>
      intro a b h
      simp only [splitAtFirst] at h
      by_cases hx : x == c
      · rw [if_pos hx] at h
        rw [Option.some.injEq, Prod.mk.injEq] at h
        obtain ⟨ha, hb⟩ := h
        subst ha
        subst hb
        simp [eq_of_beq hx]
      · rw [if_neg hx] at h
        cases hsp : splitAtFirst t c with
        | none => rw [hsp] at h; simp at h
        | some p =>
            obtain ⟨pa, pb⟩ := p
            rw [hsp] at h
            rw [Option.some.injEq, Prod.mk.injEq] at h
            obtain ⟨ha, hb⟩ := h
            subst ha
            subst hb
            rw [ih pa pb hsp]
            simp

theorem splitAtFirst_not_mem (c : Char) :
    ∀ cs : List Char, c ∉ cs → splitAtFirst cs c = none := by
  intro cs
  induction cs with
  | nil => intro _; rfl
  | cons x t ih =>
      intro hmem
      simp only [splitAtFirst]
      have hx : ¬ x == c := by
        intro hb
        exact hmem (by rw [eq_of_beq hb]; exact List.mem_cons_self c t)
      rw [if_neg hx, ih (fun hc => hmem (List.mem_cons_of_mem x hc))]

theorem splitAtFirst_complete (c : Char) :
    ∀ (a b : List Char), c ∉ a → splitAtFirst (a ++ c :: b) c = some (a, b) := by
  intro a
  induction a with
  | nil =>
      intro b _
      simp only [List.nil_append, splitAtFirst]
      rw [if_pos (beq_self_eq_true c)]
  | cons x t ih =>
      intro b hmem
      simp only [List.cons_append, splitAtFirst]
      have hx : ¬ x == c := by
        intro hb
        exact hmem (by rw [eq_of_beq hb]; exact List.mem_cons_self c t)
      rw [if_neg hx]
      simp only [List.append_eq]
      rw [ih b (fun hc => hmem (List.mem_cons_of_mem x hc))]

/-- The cross-multiplied bound check of the validator matches the exact
rational value of the parsed decimal. -/
theorem decimal_le_iff (A B k : ℕ) :
    ((A : ℚ) + (B : ℚ) / 10 ^ k ≤ 50) ↔ (A * 10 ^ k + B ≤ 50 * 10 ^ k) := by
  have hP : (0:ℚ) < 10 ^ k := by positivity
  rw [show ((A:ℚ) + (B:ℚ) / 10 ^ k ≤ 50 ↔ ((A:ℚ) + (B:ℚ) / 10 ^ k) * 10 ^ k ≤ 50 * 10 ^ k)
    from (mul_le_mul_right hP).symm]
  rw [add_mul, div_mul_cancel₀ _ (ne_of_gt hP)]
  rw [show (A:ℚ) * 10 ^ k + B = ((A * 10 ^ k + B : ℕ) : ℚ) by push_cast; ring]
  rw [show (50:ℚ) * 10 ^ k = ((50 * 10 ^ k : ℕ) : ℚ) by push_cast; ring]
  exact Nat.cast_le

theorem not_mem_of_all_digits {cs : List Char} (h : cs.all Char.isDigit = true) :
    '.' ∉ cs := by
  intro hmem
  have := List.all_eq_true.mp h '.' hmem
  simp [Char.isDigit] at this

/-- Claim C9: the experience validator accepts exactly the inputs whose
trimmed form is an unsigned decimal (digits, optionally a dot and digits)
with exact rational value in the closed interval 0 to 50; in particular
`-1` is rejected while `3.5` is accepted and stored verbatim as `3.5`. -/
theorem claim_C9 :
    (∀ x : String,
      experienceValidation x = true ↔
        ((pyStrip x).data ≠ [] ∧ (pyStrip x).data.all Char.isDigit = true ∧
          (0:ℚ) ≤ (digitsVal (pyStrip x).data : ℚ) ∧
          (digitsVal (pyStrip x).data : ℚ) ≤ 50) ∨
        (∃ a b : List Char, (pyStrip x).data = a ++ '.' :: b ∧ a ≠ [] ∧ b ≠ [] ∧
          a.all Char.isDigit = true ∧ b.all Char.isDigit = true ∧
          (0:ℚ) ≤ (digitsVal a : ℚ) + (digitsVal b : ℚ) / 10 ^ b.length ∧
          (digitsVal a : ℚ) + (digitsVal b : ℚ) / 10 ^ b.length ≤ 50)) ∧
    experienceValidation "-1" = false ∧
    experienceValidation "3.5" = true ∧
    w4.current_step = 4 ∧ w4.conversation_phase = Phase.data_collection ∧
    (handle_turn gw0 w4 "3.5").candidate_data.experience = "3.5" := by
  refine ⟨?_, by decide, by decide, by decide, by decide, by decide⟩
  intro x
  unfold experienceValidation
  cases hsp : splitAtFirst (pyStrip x).data '.' with
  | none =>
      simp only [expMatch, expParts, hsp, Bool.and_eq_true, Bool.not_eq_eq_eq_not,
        Bool.not_true, decide_eq_true_eq]
      constructor
      · rintro ⟨⟨hne, hdig⟩, -, hle⟩
        left
        have hne' : (pyStrip x).data ≠ [] := by
          intro hc
          rw [hc] at hne
          simp at hne
        refine ⟨hne', hdig, by positivity, ?_⟩
        rw [pow_zero, mul_one] at hle
        exact_mod_cast hle
      · rintro (⟨hne, hdig, -, hle⟩ | ⟨a, b, hab, ha, hb, hda, hdb, -, hle⟩)
        · refine ⟨⟨?_, hdig⟩, by omega, ?_⟩
          · simp [List.isEmpty_iff, hne]
          · rw [pow_zero, mul_one]
            exact_mod_cast hle
        · exfalso
          rw [hab, splitAtFirst_complete '.' a b (not_mem_of_all_digits hda)] at hsp
          simp at hsp
  | some p =>
      obtain ⟨a, b⟩ := p
      have hab : (pyStrip x).data = a ++ '.' :: b :=
        splitAtFirst_sound '.' (pyStrip x).data a b hsp
      simp only [expMatch, expParts, hsp, Bool.and_eq_true, Bool.not_eq_eq_eq_not,
        Bool.not_true, decide_eq_true_eq]
      constructor
      · rintro ⟨⟨⟨⟨hane, hadig⟩, hbne⟩, hbdig⟩, -, hle⟩
        right
        refine ⟨a, b, hab, ?_, ?_, hadig, hbdig, by positivity, ?_⟩
        · intro hc; rw [hc] at hane; simp at hane
        · intro hc; rw [hc] at hbne; simp at hbne
        · exact (decimal_le_iff _ _ _).mpr hle
      · rintro (⟨hne, hdig, -, hle⟩ | ⟨a', b', hab', ha', hb', hda', hdb', -, hle'⟩)
        · exfalso
          have : '.' ∈ (pyStrip x).data := by
            rw [hab]
            exact List.mem_append_right a (List.mem_cons_self '.' b)
          exact absurd (List.all_eq_true.mp hdig '.' this) (by simp [Char.isDigit])
        · have hcm := splitAtFirst_complete '.' a' b' (not_mem_of_all_digits hda')
          rw [← hab'] at hcm
          rw [hcm] at hsp
          rw [Option.some.injEq, Prod.mk.injEq] at hsp
          obtain ⟨haa, hbb⟩ := hsp
          subst haa
          subst hbb
          refine ⟨⟨⟨⟨?_, hda'⟩, ?_⟩, hdb'⟩, by omega, (decimal_le_iff _ _ _).mp hle'⟩
          · simp [List.isEmpty_iff, ha']
          · simp [List.isEmpty_iff, hb']

/-! ### History growth -/

theorem str_ne_empty_right (x y : String) (hy : y ≠ "") : x ++ y ≠ "" := by
  intro h
  exact hy ((string_append_eq_empty x y).mp h).2

theorem str_ne_empty_left (x y : String) (hx : x ≠ "") : x ++ y ≠ "" := by
  intro h
  exact hx ((string_append_eq_empty x y).mp h).1

/-- Only the seven catalogued steps have a validator that can accept. -/
theorem stepValid_bounds (gw : Gateway) (k : ℕ) (m : String)
    (h : stepValid gw k m = true) : 1 ≤ k ∧ k ≤ 7 := by
  rcases k with _ | _ | _ | _ | _ | _ | _ | _ | k
  · exact absurd h Bool.false_ne_true
  · omega
  · omega
  · omega
  · omega
  · omega
  · omega
  · omega
  · exact absurd h Bool.false_ne_true

theorem summaryMsg_ne_empty (fn : String) (cd : CandidateData) :
    summaryMsg fn cd ≠ "" := by
  unfold summaryMsg
  exact str_ne_empty_right _ _ (by decide)

theorem dcAck_ne_empty (k : ℕ) (fn : String) (cd : CandidateData)
    (h1 : 1 ≤ k) (h6 : k ≤ 6) : dcAck k fn cd ≠ "" := by
  interval_cases k
  · simp only [dcAck, if_pos rfl]
    exact str_ne_empty_right _ _ (by decide)
  · simp only [dcAck, if_neg (by omega : ¬ (2:ℕ) = 1), if_pos rfl]
    exact str_ne_empty_right _ _ (by decide)
  · simp only [dcAck, if_neg (by omega : ¬ (3:ℕ) = 1), if_neg (by omega : ¬ (3:ℕ) = 2),
      if_pos rfl]
    exact str_ne_empty_right _ _ (by decide)
  · simp only [dcAck, if_neg (by omega : ¬ (4:ℕ) = 1), if_neg (by omega : ¬ (4:ℕ) = 2),
      if_neg (by omega : ¬ (4:ℕ) = 3), if_pos rfl]
    exact str_ne_empty_right _ _ (by decide)
  · simp only [dcAck, if_neg (by omega : ¬ (5:ℕ) = 1), if_neg (by omega : ¬ (5:ℕ) = 2),
      if_neg (by omega : ¬ (5:ℕ) = 3), if_neg (by omega : ¬ (5:ℕ) = 4), if_pos rfl]
    exact str_ne_empty_right _ _ (by decide)
  · simp only [dcAck, if_neg (by omega : ¬ (6:ℕ) = 1), if_neg (by omega : ¬ (6:ℕ) = 2),
      if_neg (by omega : ¬ (6:ℕ) = 3), if_neg (by omega : ¬ (6:ℕ) = 4),
      if_neg (by omega : ¬ (6:ℕ) = 5), if_pos rfl]
    exact str_ne_empty_right _ _ (by decide)

/-- In the exit, data-collection, confirmation and technical branches the
bot response is never empty. -/
theorem turnBot_ne_empty (gw : Gateway) (s : SessionState) (m : String)
    (hcase : exitHit m = true ∨ s.conversation_phase = Phase.data_collection ∨
      s.conversation_phase = Phase.data_confirmation ∨
      s.conversation_phase = Phase.technical_questions) :
    turnBot gw s m ≠ "" := by
  unfold turnBot
  cases hx : exitHit m with
  | true =>
      rw [turnCore_exit gw s m hx]
      exact str_ne_empty_right _ _ (by decide)
  | false =>
      rcases hcase with hc | hc | hc | hc
      · rw [hx] at hc
        cases hc
      · rw [turnCore_dc gw s m hx hc]
        cases hv : stepValid gw s.current_step m with
        | false =>
            simp only [dataCollectionTurn, hv, Bool.false_eq_true, if_false]
            exact str_ne_empty_right _ _ (by decide)
        | true =>
            obtain ⟨h1, h7⟩ := stepValid_bounds gw s.current_step m hv
            simp only [dataCollectionTurn, hv, if_true]
            by_cases hgt : 7 < s.current_step + 1
            · rw [if_pos hgt]
              exact summaryMsg_ne_empty _ _
            · rw [if_neg hgt]
              exact dcAck_ne_empty _ _ _ h1 (by omega)
      · rw [turnCore_conf gw s m hx hc]
        simp only [dataConfirmTurn]
        cases ha : affirmHit m with
        | false =>
            simp only [Bool.false_eq_true, if_false]
            exact str_ne_empty_right _ _ (by decide)
        | true =>
            simp only [if_true]
            exact str_ne_empty_left _ _ (str_ne_empty_right _ _ (by decide))
      · rw [turnCore_tq gw s m hx hc]
        simp only [techTurn]
        by_cases hlt : s.current_question_index + 1 < s.technical_questions.length
        · rw [if_pos hlt]
          exact str_ne_empty_left _ _ (str_ne_empty_right _ _ (by decide))
        · rw [if_neg hlt]
          exact str_ne_empty_right _ _ (by decide)

/-- Counterexample to C10 as stated: in the greeting phase, a gateway
free-form reply that succeeds with the empty string is returned verbatim as
the bot response, so the assistant append is skipped and the turn adds only
one history entry, not two. -/
theorem claim_C10_counterexample :
    initState.conversation_phase ≠ Phase.ended ∧
    initState.messages = [] ∧
    turnBot gwEmptyReply initState "hello" = "" ∧
    (handle_turn gwEmptyReply initState "hello").messages = [userEntry "hello"] := by
  exact ⟨by decide, rfl, by decide, by decide⟩

/-- Claim C10 amended: every processed turn appends the user entry followed
by the assistant entry when the bot response is non-empty, and removes or
modifies no existing entry; the bot response is non-empty in every branch
except the greeting and conclusion phases, whose free-form gateway reply is
returned verbatim and may be empty (in which case the assistant entry is
skipped). -/
theorem claim_C10_amended :
    (∀ (gw : Gateway) (s : SessionState) (m : String),
      s.conversation_phase ≠ Phase.ended → m ≠ "" →
      (handle_turn gw s m).messages =
        s.messages ++ [userEntry m] ++
          (if turnBot gw s m = "" then [] else [assistantEntry (turnBot gw s m)])) ∧
    (∀ (gw : Gateway) (s : SessionState) (m : String),
      s.conversation_phase ≠ Phase.ended → m ≠ "" →
      (exitHit m = true ∨ s.conversation_phase = Phase.data_collection ∨
        s.conversation_phase = Phase.data_confirmation ∨
        s.conversation_phase = Phase.technical_questions) →
      turnBot gw s m ≠ "" ∧
      (handle_turn gw s m).messages =
        s.messages ++ [userEntry m, assistantEntry (turnBot gw s m)]) := by
  constructor
  · intro gw s m hp hm
    rw [handle_turn_eq gw s m hp hm]
    rfl
  · intro gw s m hp hm hcase
    have hb := turnBot_ne_empty gw s m hcase
    refine ⟨hb, ?_⟩
    unfold turnBot at hb ⊢
    rw [handle_turn_eq gw s m hp hm]
    show s.messages ++ [userEntry m] ++ _ = _
    rw [if_neg hb]
    simp

/-- Witness for C10 amended: the valid name turn from `w1` appends exactly
the user entry and the assistant entry. -/
theorem claim_C10_witness :
    turnBot gw0 w1 "Jane Doe" ≠ "" ∧
    (handle_turn gw0 w1 "Jane Doe").messages =
      w1.messages ++ [userEntry "Jane Doe", assistantEntry (turnBot gw0 w1 "Jane Doe")] :=
  claim_C10_amended.2 gw0 w1 "Jane Doe" (by decide) (by decide)
    (Or.inr (Or.inl (by decide)))

end TalentScout
